import Mathlib

/-!
Verification of the session-lifecycle core of the coding-bot service.

The TypeScript sources are shallowly embedded: JavaScript strings are
modelled as Lean String (identifiers, compared only for equality) or as
List Char (paths and comment bodies, which are manipulated character by
character), a JavaScript Map is modelled as an association list whose
set operation replaces in place or appends (mirroring Map insertion
semantics, so that the embedding makes no a-priori uniqueness
assumption), the filesystem is a list of present paths, and side effects
(git commands, Linear activity creation, registration) are recorded in
an explicit trace.  Fallible operations return Except; injected Boolean
oracles stand for the success or failure of external git calls.
-/

/-! ## JavaScript Map embedding (association list) -/

namespace JsMap

/-- Map.get: first entry with the key, if any. -/
def get? (m : List (String × α)) (k : String) : Option α :=
  match m with
  | [] => none
  | (k', v) :: rest => if k' = k then some v else get? rest k

/-- Map.set: replace the entry in place when the key is present,
append otherwise (JavaScript Map insertion order). -/
def set (m : List (String × α)) (k : String) (v : α) : List (String × α) :=
  match m with
  | [] => [(k, v)]
  | (k', v') :: rest =>
      if k' = k then (k, v) :: rest else (k', v') :: set rest k v

/-- Map.has. -/
def hasKey (m : List (String × α)) (k : String) : Bool :=
  (get? m k).isSome

/-- Map.delete: a real Map holds at most one entry per key; on the
association-list representation we drop every entry with the key. -/
def delete (m : List (String × α)) (k : String) : List (String × α) :=
  m.filter (fun e => e.1 ≠ k)

theorem get?_set_self (m : List (String × α)) (k : String) (v : α) :
    get? (set m k v) k = some v := by
  induction m with
  | nil => simp [get?, set]
  | cons e rest ih =>
      obtain ⟨k', v'⟩ := e
      by_cases h : k' = k <;> simp [get?, set, h, ih]

theorem get?_set_other (m : List (String × α)) (k k₂ : String) (v : α)
    (hne : k ≠ k₂) : get? (set m k v) k₂ = get? m k₂ := by
  induction m with
  | nil => simp [get?, set, hne]
  | cons e rest ih =>
      obtain ⟨k', v'⟩ := e
      by_cases h : k' = k
      · subst h; simp [get?, set, hne]
      · simp only [set, if_neg h]
        by_cases h2 : k' = k₂ <;> simp [get?, h2, ih]

theorem get?_delete_self (m : List (String × α)) (k : String) :
    get? (delete m k) k = none := by
  induction m with
  | nil => simp [get?, delete]
  | cons e rest ih =>
      obtain ⟨k', v'⟩ := e
      by_cases h : k' = k
      · subst h; simpa [delete, get?] using ih
      · simpa [delete, get?, h] using ih

theorem get?_filter_none (m : List (String × α)) (k : String)
    (p : String × α → Bool) (h : get? m k = none) :
    get? (m.filter p) k = none := by
  induction m with
  | nil => simp [get?]
  | cons e rest ih =>
      obtain ⟨k', v'⟩ := e
      by_cases hk : k' = k
      · subst hk; simp [get?] at h
      · simp only [get?, if_neg hk] at h
        by_cases hp : p (k', v') <;>
          simp [List.filter_cons, hp, get?, hk, ih h]

theorem get?_filter_some (m : List (String × α)) (k : String) (v : α)
    (p : String × α → Bool) (h : get? m k = some v) (hp : p (k, v) = true) :
    get? (m.filter p) k = some v := by
  induction m with
  | nil => simp [get?] at h
  | cons e rest ih =>
      obtain ⟨k', v'⟩ := e
      by_cases hk : k' = k
      · subst hk
        have hv : v' = v := by simpa [get?] using h
        subst hv
        simp [List.filter_cons, hp, get?]
      · simp only [get?, if_neg hk] at h
        by_cases hq : p (k', v') <;>
          simp [List.filter_cons, hq, get?, hk, ih h]

/-- Keys of the association list. -/
abbrev keys (m : List (String × α)) : List String :=
  m.map Prod.fst

theorem keys_set_mem (m : List (String × α)) (k : String) (v : α)
    (h : k ∈ keys m) : keys (set m k v) = keys m := by
  induction m with
  | nil => simp [keys] at h
  | cons e rest ih =>
      obtain ⟨k', v'⟩ := e
      by_cases hk : k' = k
      · simp [keys, set, hk]
      · have hmem : k ∈ keys rest := by
          simpa [keys, Ne.symm hk] using h
        simp [keys, set, hk, ih hmem]

theorem keys_set_not_mem (m : List (String × α)) (k : String) (v : α)
    (h : k ∉ keys m) : keys (set m k v) = keys m ++ [k] := by
  induction m with
  | nil => simp [keys, set]
  | cons e rest ih =>
      obtain ⟨k', v'⟩ := e
      have hk : k' ≠ k := by
        intro hkk; subst hkk; exact h (by simp [keys])
      have hmem : k ∉ keys rest := fun hm =>
        h (by rw [keys, List.map_cons]; exact List.mem_cons_of_mem _ hm)
      simp [keys, set, hk, ih hmem]

theorem nodup_keys_set (m : List (String × α)) (k : String) (v : α)
    (h : (keys m).Nodup) : (keys (set m k v)).Nodup := by
  by_cases hm : k ∈ keys m
  · rwa [keys_set_mem m k v hm]
  · rw [keys_set_not_mem m k v hm]
    refine List.nodup_append.mpr ⟨h, List.nodup_singleton k, ?_⟩
    intro a ha hb
    rw [List.mem_singleton] at hb
    subst hb
    exact hm ha

theorem nodup_keys_delete (m : List (String × α)) (k : String)
    (h : (keys m).Nodup) : (keys (delete m k)).Nodup :=
  h.sublist ((List.filter_sublist m).map Prod.fst)

end JsMap

/-! ## Session registry (src/lib/session/sessionRegistry.ts) -/

/-- InteractionType from sessionRegistry.ts. -/
inductive InteractionType
  | issue_assignment
  | question
deriving DecidableEq, Repr

/-- ActiveSession from sessionRegistry.ts.  The AbortController object is
identified by the session id; its aborted flag lives outside the registry
(see the stop-signal model below). -/
structure ActiveSession where
  sessionId : String
  ticketId : String
  worktreePath : Option (List Char)
  startedAt : Nat
  interactionType : InteractionType
deriving DecidableEq, Repr

/-- The registry state: the private Map of SessionRegistry. -/
abbrev Registry := List (String × ActiveSession)

namespace SessionRegistry

/-- register: this.sessions.set(session.sessionId, session). -/
def register (st : Registry) (s : ActiveSession) : Registry :=
  JsMap.set st s.sessionId s

/-- get: this.sessions.get(sessionId). -/
def get (st : Registry) (sessionId : String) : Option ActiveSession :=
  JsMap.get? st sessionId

/-- unregister: this.sessions.delete(sessionId); returns whether an entry
was removed. -/
def unregister (st : Registry) (sessionId : String) : Registry × Bool :=
  (JsMap.delete st sessionId, JsMap.hasKey st sessionId)

/-- has: this.sessions.has(sessionId). -/
def has (st : Registry) (sessionId : String) : Bool :=
  JsMap.hasKey st sessionId

/-- size: this.sessions.size. -/
def size (st : Registry) : Nat :=
  st.length

/-- getAll: Array.from(this.sessions.values()). -/
def getAll (st : Registry) : List ActiveSession :=
  st.map Prod.snd

/-- updateSessionWorktree: mutates the stored session's worktreePath in
place when present; returns whether the session was found. -/
def updateSessionWorktree (st : Registry) (sessionId : String)
    (worktreePath : List Char) : Registry × Bool :=
  match JsMap.get? st sessionId with
  | some s =>
      (JsMap.set st sessionId { s with worktreePath := some worktreePath }, true)
  | none => (st, false)

/-- abortSession: calls the stored session's abortController.abort(); the
registry Map itself is unchanged.  Returns whether the session was found. -/
def abortSession (st : Registry) (sessionId : String) : Bool :=
  (JsMap.get? st sessionId).isSome

end SessionRegistry

/-- One registry operation, for reasoning about arbitrary operation
sequences (claim C1). -/
inductive RegOp
  | register (s : ActiveSession)
  | unregister (sessionId : String)
  | updateWorktree (sessionId : String) (worktreePath : List Char)
  | abort (sessionId : String)

/-- Effect of one operation on the registry state.  abortSession touches
only the AbortController, never the Map. -/
def applyRegOp (st : Registry) : RegOp → Registry
  | .register s => SessionRegistry.register st s
  | .unregister sessionId => (SessionRegistry.unregister st sessionId).1
  | .updateWorktree sessionId p =>
      (SessionRegistry.updateSessionWorktree st sessionId p).1
  | .abort _ => st

/-- Number of registry entries stored under a given sessionId. -/
def countKey (st : Registry) (sessionId : String) : Nat :=
  (st.filter (fun e => e.1 = sessionId)).length

theorem countKey_cons (k' : String) (v : ActiveSession) (rest : Registry)
    (k : String) :
    countKey ((k', v) :: rest) k
      = (if k' = k then 1 else 0) + countKey rest k := by
  by_cases h : k' = k <;> simp [countKey, List.filter_cons, h, Nat.add_comm]

theorem countKey_eq_zero_of_not_mem (m : Registry) (k : String)
    (h : k ∉ JsMap.keys m) : countKey m k = 0 := by
  induction m with
  | nil => rfl
  | cons e rest ih =>
      obtain ⟨k', v'⟩ := e
      have h1 : k' ≠ k := by
        intro hk
        subst hk
        exact h (by rw [JsMap.keys, List.map_cons]; exact List.mem_cons_self _ _)
      have h2 : k ∉ JsMap.keys rest := fun hm =>
        h (by rw [JsMap.keys, List.map_cons]; exact List.mem_cons_of_mem _ hm)
      rw [countKey_cons, if_neg h1, ih h2]

theorem countKey_le_one_of_nodup (st : Registry) (sessionId : String)
    (h : (JsMap.keys st).Nodup) : countKey st sessionId ≤ 1 := by
  induction st with
  | nil => simp [countKey]
  | cons e rest ih =>
      obtain ⟨k, v⟩ := e
      rw [JsMap.keys, List.map_cons, List.nodup_cons] at h
      rw [countKey_cons]
      by_cases hk : k = sessionId
      · subst hk
        rw [countKey_eq_zero_of_not_mem rest k h.1]
        simp
      · rw [if_neg hk]
        simpa using ih h.2

theorem countKey_pos_of_get (m : Registry) (k : String) (v : ActiveSession)
    (h : JsMap.get? m k = some v) : 0 < countKey m k := by
  induction m with
  | nil => simp [JsMap.get?] at h
  | cons e rest ih =>
      obtain ⟨k', v'⟩ := e
      rw [countKey_cons]
      by_cases hk : k' = k
      · simp [hk]
      · rw [JsMap.get?, if_neg hk] at h
        simpa [hk] using ih h

theorem nodup_keys_applyRegOp (st : Registry) (op : RegOp)
    (h : (JsMap.keys st).Nodup) : (JsMap.keys (applyRegOp st op)).Nodup := by
  cases op with
  | register s => exact JsMap.nodup_keys_set st s.sessionId s h
  | unregister sessionId => exact JsMap.nodup_keys_delete st sessionId h
  | updateWorktree sessionId p =>
      rw [applyRegOp, SessionRegistry.updateSessionWorktree]
      cases hg : JsMap.get? st sessionId with
      | none => exact h
      | some s => exact JsMap.nodup_keys_set st sessionId _ h
  | abort sessionId => exact h

theorem nodup_keys_foldl (ops : List RegOp) (st : Registry)
    (h : (JsMap.keys st).Nodup) :
    (JsMap.keys (ops.foldl applyRegOp st)).Nodup := by
  induction ops generalizing st with
  | nil => exact h
  | cons op rest ih =>
      exact ih (applyRegOp st op) (nodup_keys_applyRegOp st op h)

theorem countKey_register_of_nodup (st : Registry) (s : ActiveSession)
    (h : (JsMap.keys st).Nodup) :
    countKey (SessionRegistry.register st s) s.sessionId = 1 := by
  have hn : (JsMap.keys (SessionRegistry.register st s)).Nodup :=
    JsMap.nodup_keys_set st s.sessionId s h
  have hle : countKey (SessionRegistry.register st s) s.sessionId ≤ 1 :=
    countKey_le_one_of_nodup _ _ hn
  have hpos : 0 < countKey (SessionRegistry.register st s) s.sessionId :=
    countKey_pos_of_get _ _ s (JsMap.get?_set_self st s.sessionId s)
  omega

/-- Concrete sessions used by witnesses and counterexamples. -/
def sessW1 : ActiveSession :=
  { sessionId := "a", ticketId := "t1", worktreePath := none,
    startedAt := 0, interactionType := .issue_assignment }

def sessW2 : ActiveSession :=
  { sessionId := "a", ticketId := "t2", worktreePath := none,
    startedAt := 1, interactionType := .question }

/-- C1: the session registry holds at most one entry per sessionId at every
instant: after any sequence of registry operations (register, unregister,
updateSessionWorktree, abortSession) starting from the empty registry, the
keys are pairwise distinct and each sessionId has at most one entry; two
register calls for the same sessionId with no intervening unregister leave
exactly one entry under that id. -/
theorem c1_registry_at_most_one_per_id (ops : List RegOp) :
    (JsMap.keys (ops.foldl applyRegOp ([] : Registry))).Nodup
    ∧ (∀ sessionId, countKey (ops.foldl applyRegOp ([] : Registry)) sessionId ≤ 1)
    ∧ (∀ s₁ s₂ : ActiveSession, s₁.sessionId = s₂.sessionId →
        countKey
          (applyRegOp
            (applyRegOp (ops.foldl applyRegOp ([] : Registry)) (.register s₁))
            (.register s₂))
          s₂.sessionId = 1) := by
  have hnd : (JsMap.keys (ops.foldl applyRegOp ([] : Registry))).Nodup :=
    nodup_keys_foldl ops [] (by simp [JsMap.keys])
  refine ⟨hnd, fun sessionId => countKey_le_one_of_nodup _ _ hnd, ?_⟩
  intro s₁ s₂ heq
  have h1 : (JsMap.keys
      (applyRegOp (ops.foldl applyRegOp ([] : Registry)) (.register s₁))).Nodup :=
    nodup_keys_applyRegOp _ _ hnd
  show countKey
      (SessionRegistry.register
        (applyRegOp (ops.foldl applyRegOp ([] : Registry)) (.register s₁)) s₂)
      s₂.sessionId = 1
  exact countKey_register_of_nodup _ s₂ h1

/-- Witness for C1 at a concrete operation sequence and duplicate pair. -/
theorem c1_registry_at_most_one_per_id_witness :
    countKey
      (applyRegOp
        (applyRegOp
          (([RegOp.abort "z"]).foldl applyRegOp ([] : Registry))
          (.register sessW1))
        (.register sessW2))
      sessW2.sessionId = 1 :=
  (c1_registry_at_most_one_per_id [RegOp.abort "z"]).2.2 sessW1 sessW2 rfl

/-- C7 counterexample: register is not a no-op when the sessionId is already
present — registering a second session under the id "a" replaces the stored
entry rather than leaving it unchanged. -/
theorem c7_register_noop_counterexample :
    SessionRegistry.get
        (SessionRegistry.register (SessionRegistry.register [] sessW1) sessW2)
        "a" = some sessW2
    ∧ some sessW2 ≠ some sessW1 := by
  refine ⟨rfl, ?_⟩
  decide

/-- C7 amended: register(s) unconditionally stores s under s.sessionId,
overwriting any previously stored entry for that id and leaving every other
id untouched; duplicate avoidance is the caller's has-check, not register. -/
theorem c7_register_overwrites (st : Registry) (s : ActiveSession) :
    SessionRegistry.get (SessionRegistry.register st s) s.sessionId = some s
    ∧ (∀ sessionId, sessionId ≠ s.sessionId →
        SessionRegistry.get (SessionRegistry.register st s) sessionId
          = SessionRegistry.get st sessionId) :=
  ⟨JsMap.get?_set_self st s.sessionId s,
    fun sessionId hne =>
      JsMap.get?_set_other st s.sessionId sessionId s (Ne.symm hne)⟩

/-- Witness for C7's amended theorem at a concrete registry and session. -/
theorem c7_register_overwrites_witness :
    SessionRegistry.get (SessionRegistry.register [] sessW1) "a" = some sessW1
    ∧ SessionRegistry.get (SessionRegistry.register [] sessW1) "zz"
        = SessionRegistry.get ([] : Registry) "zz" :=
  ⟨(c7_register_overwrites [] sessW1).1,
    (c7_register_overwrites [] sessW1).2 "zz" (by decide)⟩

/-! ## Interaction classifier (src/app.ts, getInteractionType) -/

/-- A comment carried by the webhook payload; only the body matters to the
classifier. -/
structure CommentInfo where
  body : List Char
deriving DecidableEq, Repr

/-- agentSession field of the payload, restricted to what the classifier
reads (comment?.body). -/
structure AgentSessionInfo where
  comment : Option CommentInfo
deriving DecidableEq, Repr

/-- The webhook payload fields consumed by getInteractionType. -/
structure WebhookPayload where
  previousComments : Option (List CommentInfo)
  agentSession : AgentSessionInfo
deriving DecidableEq, Repr

/-- Characters the JavaScript regex dot does not match (line terminators). -/
def isLineTerm (c : Char) : Bool :=
  c == Char.ofNat 10 || c == Char.ofNat 13
    || c == Char.ofNat 0x2028 || c == Char.ofNat 0x2029

/-- Does the second list start with the first? -/
def listStartsWith : List Char → List Char → Bool
  | [], _ => true
  | _ :: _, [] => false
  | p :: ps, c :: cs => p == c && listStartsWith ps cs

/-- The fixed text before the agent name in the delegation comment. -/
def templateHead : List Char :=
  "This thread is for an agent session with ".data

/-- Checks the part of the body after templateHead against the rest of the
regex: at least one non-line-terminator character, then a final period at
the very end of the string. -/
def delegationTail (rest : List Char) : Bool :=
  match rest.getLast? with
  | some last =>
      last == '.' && !rest.dropLast.isEmpty
        && rest.dropLast.all (fun c => !isLineTerm c)
  | none => false

/-- The test of the regex of getInteractionType applied to the comment body:
the body is the fixed templateHead, then at least one character, then a
period ending the string. -/
def isDelegationComment (body : List Char) : Bool :=
  listStartsWith templateHead body
    && delegationTail (body.drop templateHead.length)

/-- getInteractionType from src/app.ts: previous comments mean a question in
an existing thread; a non-empty comment body that is not the
system-generated delegation comment is a user question; everything else is
an issue assignment. -/
def getInteractionType (payload : WebhookPayload) : InteractionType :=
  if (payload.previousComments.getD []).length > 0 then .question
  else
    match payload.agentSession.comment with
    | some c =>
        if c.body.length > 0 && !isDelegationComment c.body then .question
        else .issue_assignment
    | none => .issue_assignment

/-- The three interaction kinds named by the specification. -/
inductive SpecInteraction
  | assignment
  | question
  | resume
deriving DecidableEq, Repr

/-- The code two-valued interaction type viewed inside the specification
three-valued one. -/
def embedInteraction : InteractionType → SpecInteraction
  | .issue_assignment => .assignment
  | .question => .question

/-- Modelled from the spec: the claimed classifier of section 4.2, a pure
function of the pending-question flag and the payload, with rule 1 mapping
a pending question to resume and rules 2 to 4 as written. -/
def specClassify (existingSessionHasPendingQuestion : Bool)
    (payload : WebhookPayload) : SpecInteraction :=
  if existingSessionHasPendingQuestion then .resume
  else if payload.previousComments.getD [] ≠ [] then .question
  else
    match payload.agentSession.comment with
    | some c =>
        if c.body ≠ [] ∧ ¬ isDelegationComment c.body = true then .question
        else .assignment
    | none => .assignment

theorem listStartsWith_iff_append (ps cs : List Char) :
    listStartsWith ps cs = true ↔ ∃ rest, cs = ps ++ rest := by
  induction ps generalizing cs with
  | nil => simp [listStartsWith]
  | cons p ps ih =>
      cases cs with
      | nil =>
          simp only [listStartsWith, Bool.false_eq_true, false_iff]
          rintro ⟨rest, hrest⟩
          exact List.noConfusion hrest
      | cons c cs =>
          rw [listStartsWith, Bool.and_eq_true, beq_iff_eq, ih]
          constructor
          · rintro ⟨rfl, rest, rfl⟩
            exact ⟨rest, rfl⟩
          · rintro ⟨rest, hrest⟩
            rw [List.cons_append] at hrest
            obtain ⟨h1, h2⟩ := List.cons.inj hrest
            exact ⟨h1.symm, rest, h2⟩

theorem delegationTail_iff (rest : List Char) :
    delegationTail rest = true ↔
      ∃ mid, rest = mid ++ ['.'] ∧ mid ≠ []
        ∧ ∀ c ∈ mid, isLineTerm c = false := by
  induction rest using List.reverseRecOn with
  | nil => simp [delegationTail]
  | append_singleton mid last ih =>
      clear ih
      rw [delegationTail, List.getLast?_concat, List.dropLast_concat,
        Bool.and_eq_true, Bool.and_eq_true, beq_iff_eq]
      constructor
      · rintro ⟨⟨rfl, hne⟩, hall⟩
        refine ⟨mid, rfl, ?_, ?_⟩
        · intro hnil
          subst hnil
          simp at hne
        · intro c hc
          simpa using List.all_eq_true.mp hall c hc
      · rintro ⟨mid2, heq, hne, hall⟩
        obtain ⟨rfl, hl⟩ := List.append_inj heq (by
          have := congrArg List.length heq
          simpa using this)
        obtain rfl : last = '.' := (List.cons.inj hl).1
        refine ⟨⟨rfl, ?_⟩, ?_⟩
        · simpa using hne
        · exact List.all_eq_true.mpr (fun c hc => by simp [hall c hc])

theorem isDelegationComment_iff (body : List Char) :
    isDelegationComment body = true ↔
      ∃ mid, body = templateHead ++ (mid ++ ['.']) ∧ mid ≠ []
        ∧ ∀ c ∈ mid, isLineTerm c = false := by
  rw [isDelegationComment, Bool.and_eq_true, listStartsWith_iff_append]
  constructor
  · rintro ⟨⟨rest, rfl⟩, htail⟩
    rw [List.drop_left] at htail
    obtain ⟨mid, rfl, hne, hall⟩ := (delegationTail_iff rest).1 htail
    exact ⟨mid, rfl, hne, hall⟩
  · rintro ⟨mid, rfl, hne, hall⟩
    refine ⟨⟨mid ++ ['.'], rfl⟩, ?_⟩
    rw [List.drop_left]
    exact (delegationTail_iff _).2 ⟨mid, rfl, hne, hall⟩

/-- A payload whose single comment is exactly the system delegation text. -/
def payloadW : WebhookPayload :=
  { previousComments := none,
    agentSession :=
      { comment :=
          some { body := "This thread is for an agent session with Bot.".data } } }

/-- C4 counterexample: for a payload referencing a session with a pending
question, the spec classifier of section 4.2 answers resume, but the code
classifier has no resume case at all — it never consults session state and
classifies the delegation-comment payload as an assignment. -/
theorem c4_classifier_resume_counterexample :
    specClassify true payloadW = SpecInteraction.resume
    ∧ embedInteraction (getInteractionType payloadW) = SpecInteraction.assignment
    ∧ SpecInteraction.assignment ≠ SpecInteraction.resume := by
  refine ⟨rfl, by decide, by decide⟩

/-- C4 amended: the classifier is a pure deterministic function of the
payload alone and never yields resume; with the pending-question rule
removed it satisfies rules 2 to 4 exactly: non-empty prior thread comments
give question, a single comment with a non-empty body not matching the
delegation template gives question, and everything else gives assignment —
where the code's regex test recognises exactly the bodies consisting of the
fixed template text, a non-empty name without line terminators, and a final
period. -/
theorem c4_classifier_amended :
    (∀ payload, embedInteraction (getInteractionType payload)
        = specClassify false payload)
    ∧ (∀ body, isDelegationComment body = true ↔
        ∃ mid, body = templateHead ++ (mid ++ ['.']) ∧ mid ≠ []
          ∧ ∀ c ∈ mid, isLineTerm c = false) := by
  refine ⟨?_, isDelegationComment_iff⟩
  intro payload
  obtain ⟨prev, ⟨comment⟩⟩ := payload
  by_cases hp : prev.getD [] = []
  · cases comment with
    | none => simp [getInteractionType, specClassify, hp, embedInteraction]
    | some c =>
        by_cases hb : c.body = []
        · simp [getInteractionType, specClassify, hp, hb, embedInteraction]
        · by_cases hd : isDelegationComment c.body
          · simp [getInteractionType, specClassify, hp, hb, hd,
              embedInteraction, List.length_pos]
          · simp [getInteractionType, specClassify, hp, hb, hd,
              embedInteraction, List.length_pos]
  · simp [getInteractionType, specClassify, hp, embedInteraction,
      List.length_pos]

/-- Witness for C4's amended theorem at the concrete delegation payload and
a concrete body. -/
theorem c4_classifier_amended_witness :
    embedInteraction (getInteractionType payloadW) = specClassify false payloadW
    ∧ (isDelegationComment "ab.".data = true ↔
        ∃ mid, "ab.".data = templateHead ++ (mid ++ ['.']) ∧ mid ≠ []
          ∧ ∀ c ∈ mid, isLineTerm c = false) :=
  ⟨c4_classifier_amended.1 payloadW, c4_classifier_amended.2 "ab.".data⟩

/-! ## Webhook deduplication cache (src/app.ts, processedSessions) -/

/-- The processedSessions Map: agentSession.id to insertion timestamp. -/
abbrev DedupCache := List (String × Nat)

/-- SESSION_CACHE_TTL_MS = 5 * 60 * 1000. -/
def SESSION_CACHE_TTL_MS : Nat := 5 * 60 * 1000

/-- cleanupSessionCache: delete every entry whose age exceeds the TTL
(keep an entry exactly when now - timestamp is at most the TTL). -/
def cleanupSessionCache (now : Nat) (cache : DedupCache) : DedupCache :=
  cache.filter (fun e => decide (now - e.2 ≤ SESSION_CACHE_TTL_MS))

/-- One webhook delivery: the optional agentSession.id and Date.now(). -/
structure Delivery where
  sid : Option String
  time : Nat
deriving DecidableEq, Repr

/-- The AgentSessionEvent handler prologue: skip when the session id is
cached, otherwise record it, prune lazily, and hand the payload to
handleAgentSessionEvent (recorded in the side-effect trace). -/
def dedupStep (st : DedupCache × List (Option String)) (d : Delivery) :
    DedupCache × List (Option String) :=
  match d.sid with
  | some sessionId =>
      if JsMap.hasKey st.1 sessionId then st
      else
        (cleanupSessionCache d.time (JsMap.set st.1 sessionId d.time),
          st.2 ++ [some sessionId])
  | none => (st.1, st.2 ++ [none])

/-- Handle a sequence of deliveries starting from an empty cache. -/
def runDedup (ds : List Delivery) : DedupCache × List (Option String) :=
  ds.foldl dedupStep ([], [])

/-- Number of downstream side effects produced for a given session id. -/
def processedCount (sessionId : String) (tr : List (Option String)) : Nat :=
  tr.count (some sessionId)

theorem dedup_fold_not_seen (ds : List Delivery) (X : String) :
    ∀ (c : DedupCache) (tr : List (Option String)),
      JsMap.get? c X = none → (∀ d ∈ ds, d.sid ≠ some X) →
      JsMap.get? (ds.foldl dedupStep (c, tr)).1 X = none
      ∧ (ds.foldl dedupStep (c, tr)).2.count (some X) = tr.count (some X) := by
  induction ds with
  | nil => intro c tr h _; exact ⟨h, rfl⟩
  | cons d rest ih =>
      intro c tr h hds
      have hd : d.sid ≠ some X := hds d (List.mem_cons_self d rest)
      have hrest : ∀ e ∈ rest, e.sid ≠ some X :=
        fun e he => hds e (List.mem_cons_of_mem d he)
      rw [List.foldl_cons]
      cases hsid : d.sid with
      | none =>
          simp only [dedupStep, hsid]
          have := ih c (tr ++ [none]) h hrest
          simpa [List.count_append] using this
      | some Y =>
          have hY : Y ≠ X := by
            intro hYX
            exact hd (by rw [hsid, hYX])
          simp only [dedupStep, hsid]
          by_cases hk : JsMap.hasKey c Y
          · rw [if_pos hk]
            exact ih c tr h hrest
          · rw [if_neg hk]
            have hset : JsMap.get? (JsMap.set c Y d.time) X = none := by
              rw [JsMap.get?_set_other c Y X d.time hY]
              exact h
            have hclean :
                JsMap.get? (cleanupSessionCache d.time (JsMap.set c Y d.time))
                  X = none :=
              JsMap.get?_filter_none _ X _ hset
            have := ih _ (tr ++ [some Y]) hclean hrest
            simpa [List.count_append, List.count_cons, beq_iff_eq, hY] using this

theorem dedup_fold_seen (ds : List Delivery) (X : String) (t1 : Nat) :
    ∀ (c : DedupCache) (tr : List (Option String)),
      JsMap.get? c X = some t1 →
      (∀ d ∈ ds, d.sid ≠ some X ∧ d.time ≤ t1 + SESSION_CACHE_TTL_MS) →
      JsMap.get? (ds.foldl dedupStep (c, tr)).1 X = some t1
      ∧ (ds.foldl dedupStep (c, tr)).2.count (some X) = tr.count (some X) := by
  induction ds with
  | nil => intro c tr h _; exact ⟨h, rfl⟩
  | cons d rest ih =>
      intro c tr h hds
      have hd := hds d (List.mem_cons_self d rest)
      have hrest : ∀ e ∈ rest,
          e.sid ≠ some X ∧ e.time ≤ t1 + SESSION_CACHE_TTL_MS :=
        fun e he => hds e (List.mem_cons_of_mem d he)
      rw [List.foldl_cons]
      cases hsid : d.sid with
      | none =>
          simp only [dedupStep, hsid]
          have := ih c (tr ++ [none]) h hrest
          simpa [List.count_append] using this
      | some Y =>
          have hY : Y ≠ X := by
            intro hYX
            exact hd.1 (by rw [hsid, hYX])
          simp only [dedupStep, hsid]
          by_cases hk : JsMap.hasKey c Y
          · rw [if_pos hk]
            exact ih c tr h hrest
          · rw [if_neg hk]
            have hset : JsMap.get? (JsMap.set c Y d.time) X = some t1 := by
              rw [JsMap.get?_set_other c Y X d.time hY]
              exact h
            have hkeep : (fun e : String × Nat =>
                decide (d.time - e.2 ≤ SESSION_CACHE_TTL_MS)) (X, t1) = true := by
              have := hd.2
              simp only [decide_eq_true_eq]
              omega
            have hclean :
                JsMap.get? (cleanupSessionCache d.time (JsMap.set c Y d.time))
                  X = some t1 :=
              JsMap.get?_filter_some _ X t1 _ hset hkeep
            have := ih _ (tr ++ [some Y]) hclean hrest
            simpa [List.count_append, List.count_cons, beq_iff_eq, hY] using this

/-- C3 counterexample: the same session id delivered at time 0 and again at
time 300001 — after the 5-minute window has elapsed — produces only one
downstream side effect: the stale cache entry still suppresses the second
delivery because pruning runs only when a new id is inserted. -/
theorem c3_redelivery_after_window_counterexample :
    (runDedup [⟨some "x", 0⟩, ⟨some "x", 300001⟩]).2 = [some "x"]
    ∧ processedCount "x" (runDedup [⟨some "x", 0⟩, ⟨some "x", 300001⟩]).2
        = 1 := by
  constructor <;> rfl

/-- C3 amended: a duplicate delivery of the same event id while the entry is
still cached (in particular, within the 5-minute retention window) produces
exactly one downstream side effect, the duplicate being dropped before any
side effect; a redelivery after the window has elapsed is processed again
only once the stale entry has been pruned, which happens lazily when some
later event with a fresh id is recorded after the expiry — as in the
three-delivery pruning scenario proved here. -/
theorem c3_dedup_amended :
    (∀ (pre mid : List Delivery) (X : String) (t1 t2 : Nat),
        (∀ d ∈ pre, d.sid ≠ some X) →
        (∀ d ∈ mid, d.sid ≠ some X ∧ d.time ≤ t1 + SESSION_CACHE_TTL_MS) →
        t2 ≤ t1 + SESSION_CACHE_TTL_MS →
        processedCount X
          (runDedup (pre ++ ⟨some X, t1⟩ :: (mid ++ [⟨some X, t2⟩]))).2 = 1)
    ∧ (∀ (X Y : String) (t1 t2 t3 : Nat), X ≠ Y →
        t1 + SESSION_CACHE_TTL_MS < t2 →
        processedCount X
          (runDedup [⟨some X, t1⟩, ⟨some Y, t2⟩, ⟨some X, t3⟩]).2 = 2) := by
  constructor
  · intro pre mid X t1 t2 hpre hmid ht2
    rw [runDedup, List.foldl_append, List.foldl_cons, List.foldl_append]
    obtain ⟨hc0, htr0⟩ := dedup_fold_not_seen pre X [] [] rfl hpre
    rcases hPdef : List.foldl dedupStep ([], []) pre with ⟨c0, tr0⟩
    rw [hPdef] at hc0 htr0
    simp only at hc0 htr0
    have hkey : JsMap.hasKey c0 X = false := by
      rw [JsMap.hasKey, hc0]
      rfl
    simp only [dedupStep, hkey, Bool.false_eq_true, if_false]
    have hget1 : JsMap.get?
        (cleanupSessionCache t1 (JsMap.set c0 X t1)) X = some t1 := by
      refine JsMap.get?_filter_some _ X t1 _ (JsMap.get?_set_self c0 X t1) ?_
      simp
    obtain ⟨hc2, htr2⟩ :=
      dedup_fold_seen mid X t1 (cleanupSessionCache t1 (JsMap.set c0 X t1))
        (tr0 ++ [some X]) hget1 hmid
    rw [List.foldl_cons, List.foldl_nil]
    rcases hQdef : List.foldl dedupStep
        (cleanupSessionCache t1 (JsMap.set c0 X t1), tr0 ++ [some X]) mid
      with ⟨c2, tr2⟩
    rw [hQdef] at hc2 htr2
    simp only at hc2 htr2
    have hkey2 : JsMap.hasKey c2 X = true := by
      rw [JsMap.hasKey, hc2]
      rfl
    simp only [dedupStep, hkey2, if_true]
    rw [processedCount]
    rw [htr2, List.count_append, htr0]
    simp
  · intro X Y t1 t2 t3 hXY h12
    have hYX : Y ≠ X := Ne.symm hXY
    have hb : ¬ (t2 - t1 ≤ SESSION_CACHE_TTL_MS) := by omega
    have hb2 : ¬ (t2 ≤ SESSION_CACHE_TTL_MS + t1) := by omega
    simp [runDedup, dedupStep, cleanupSessionCache, JsMap.hasKey, JsMap.get?,
      JsMap.set, processedCount, hXY, hYX, hb, hb2, List.filter_cons,
      List.count_cons, beq_iff_eq]

/-- Witness for C3's amended theorem at concrete deliveries. -/
theorem c3_dedup_amended_witness :
    processedCount "x"
        (runDedup ([] ++ ⟨some "x", 0⟩ :: ([⟨some "y", 5⟩] ++ [⟨some "x", 7⟩]))).2
      = 1
    ∧ processedCount "x"
        (runDedup [⟨some "x", 0⟩, ⟨some "y", 300001⟩, ⟨some "x", 300002⟩]).2
      = 2 :=
  ⟨c3_dedup_amended.1 [] [⟨some "y", 5⟩] "x" 0 7 (by simp)
      (by decide) (by decide),
    c3_dedup_amended.2 "x" "y" 0 300001 300002 (by decide) (by decide)⟩

/-! ## Worktree lifecycle (src/lib/workflow/worktreeLifecycle.ts) -/

/-- The filesystem: the set of paths that exist, as a list. -/
abbrev FS := List (List Char)

/-- mkdir -p / worktree add: add a path if absent. -/
def insertPath (fs : FS) (p : List Char) : FS :=
  if p ∈ fs then fs else p :: fs

/-- Remove a path. -/
def removePath (fs : FS) (p : List Char) : FS :=
  fs.filter (fun q => q ≠ p)

/-- Path separator. -/
def sep : List Char := ['/']

/-- The .worktrees directory component. -/
def dotWorktrees : List Char := ".worktrees".data

/-- WorktreeConfig from worktreeLifecycle.ts. -/
structure WorktreeConfig where
  repoBasePath : List Char
  repoName : List Char
  branchName : List Char
  baseBranch : List Char
deriving DecidableEq, Repr

/-- path.join(repoBasePath, ".worktrees", repoName, branchName). -/
def worktreePathOf (repoBasePath repoName branchName : List Char) : List Char :=
  repoBasePath ++ sep ++ dotWorktrees ++ sep ++ repoName ++ sep ++ branchName

/-- path.dirname of the worktree path: the directory the code mkdirs. -/
def worktreeParentOf (repoBasePath repoName : List Char) : List Char :=
  repoBasePath ++ sep ++ dotWorktrees ++ sep ++ repoName

/-- WorktreeResult from worktreeLifecycle.ts. -/
structure WorktreeResult where
  worktreePath : List Char
  branchName : List Char
  created : Bool
deriving DecidableEq, Repr

/-- Git commands issued by the worktree lifecycle manager. -/
inductive GitOp
  | fetch (baseBranch : List Char)
  | worktreeAddTrack (worktreePath branchName : List Char)
  | worktreeAddNew (branchName worktreePath baseBranch : List Char)
  | worktreeRemove (worktreePath : List Char)
  | prune
deriving DecidableEq, Repr

/-- Failures of the external calls. -/
inductive GitErr
  | fetchFailed
  | addFailed
  | removeFailed
  | pruneFailed
  | accessFailed
deriving DecidableEq, Repr

/-- createWorktree: mkdir the parent, return the existing path unchanged
with created=false when it is already on disk, otherwise fetch the base
branch, check the remote refs for origin/branchName, and add a worktree
tracking the existing branch or creating a new one from the fetched base.
The Boolean oracles decide whether the fetch and the worktree add succeed;
on success the new state of the filesystem and the git commands run are
returned. -/
def createWorktree (config : WorktreeConfig) (fs : FS)
    (remoteBranches : List (List Char)) (fetchOk addOk : Bool) :
    Except GitErr (WorktreeResult × FS × List GitOp) :=
  let worktreePath :=
    worktreePathOf config.repoBasePath config.repoName config.branchName
  let fs1 := insertPath fs (worktreeParentOf config.repoBasePath config.repoName)
  if worktreePath ∈ fs1 then
    .ok (⟨worktreePath, config.branchName, false⟩, fs1, [])
  else if fetchOk = false then
    .error .fetchFailed
  else if addOk = false then
    .error .addFailed
  else if ("origin/".data ++ config.branchName) ∈ remoteBranches then
    .ok (⟨worktreePath, config.branchName, true⟩, insertPath fs1 worktreePath,
      [.fetch config.baseBranch,
        .worktreeAddTrack worktreePath config.branchName])
  else
    .ok (⟨worktreePath, config.branchName, true⟩, insertPath fs1 worktreePath,
      [.fetch config.baseBranch,
        .worktreeAddNew config.branchName worktreePath config.baseBranch])

/-- try/catch: run the body, or hand the error to the catch handler. -/
def tryCatchE (body : Except GitErr α) (handler : GitErr → Except GitErr α) :
    Except GitErr α :=
  match body with
  | .ok a => .ok a
  | .error e => handler e

/-- fs.access: succeeds exactly when the path exists. -/
def fsAccess (fs : FS) (p : List Char) : Except GitErr Unit :=
  if p ∈ fs then .ok () else .error .accessFailed

/-- git worktree remove --force, controlled by an oracle. -/
def gitWorktreeRemove (fs : FS) (worktreePath : List Char) (removeOk : Bool) :
    Except GitErr (FS × List GitOp) :=
  if removeOk then .ok (removePath fs worktreePath, [.worktreeRemove worktreePath])
  else .error .removeFailed

/-- git worktree prune, controlled by an oracle. -/
def gitWorktreePrune (pruneOk : Bool) : Except GitErr (List GitOp) :=
  if pruneOk then .ok [.prune] else .error .pruneFailed

/-- cleanupWorktree: first try/catch checks the path and force-removes the
worktree, treating any failure (including a missing path) as already
removed; second try/catch prunes stale worktree references and ignores
errors.  Each match on .error mirrors an await that would propagate. -/
def cleanupWorktree (repoBasePath repoName branchName : List Char) (fs : FS)
    (removeOk pruneOk : Bool) : Except GitErr (FS × List GitOp) :=
  let worktreePath := worktreePathOf repoBasePath repoName branchName
  match tryCatchE
      (match fsAccess fs worktreePath with
        | .ok _ => gitWorktreeRemove fs worktreePath removeOk
        | .error e => .error e)
      (fun _ => .ok (fs, [])) with
  | .error e => .error e
  | .ok (fs1, ops1) =>
      match tryCatchE (gitWorktreePrune pruneOk) (fun _ => .ok []) with
      | .error e => .error e
      | .ok ops2 => .ok (fs1, ops1 ++ ops2)

theorem mem_insertPath_self (fs : FS) (p : List Char) : p ∈ insertPath fs p := by
  rw [insertPath]
  by_cases h : p ∈ fs <;> simp [h]

theorem mem_insertPath_of_mem (fs : FS) (p q : List Char) (h : q ∈ fs) :
    q ∈ insertPath fs p := by
  rw [insertPath]
  by_cases hp : p ∈ fs <;> simp [hp, h]

theorem insertPath_eq_of_mem (fs : FS) (p : List Char) (h : p ∈ fs) :
    insertPath fs p = fs := by
  rw [insertPath, if_pos h]

theorem not_mem_removePath (fs : FS) (p : List Char) :
    p ∉ removePath fs p := by
  intro h
  rw [removePath] at h
  have := (List.mem_filter.mp h).2
  simp at this

/-- C5: createWorktree is idempotent — whenever a call succeeds, a second
call with the identical config on the resulting filesystem returns the same
worktree path with created=false, changes nothing on disk, and issues no
git command at all (no fetch, no branch creation, no worktree add),
whatever the remote refs and oracles say the second time. -/
theorem c5_createWorktree_idempotent (config : WorktreeConfig) (fs : FS)
    (remoteBranches : List (List Char)) (fetchOk addOk : Bool)
    (r : WorktreeResult) (fs' : FS) (ops : List GitOp)
    (h : createWorktree config fs remoteBranches fetchOk addOk
      = .ok (r, fs', ops)) :
    ∀ (remoteBranches2 : List (List Char)) (fetchOk2 addOk2 : Bool),
      createWorktree config fs' remoteBranches2 fetchOk2 addOk2
        = .ok (⟨r.worktreePath, config.branchName, false⟩, fs', []) := by
  intro remoteBranches2 fetchOk2 addOk2
  have hparent : worktreeParentOf config.repoBasePath config.repoName ∈ fs'
      ∧ worktreePathOf config.repoBasePath config.repoName config.branchName
        ∈ fs'
      ∧ r.worktreePath
        = worktreePathOf config.repoBasePath config.repoName
            config.branchName := by
    rw [createWorktree] at h
    split_ifs at h with h1 h2 h3 h4 <;>
      simp only [Except.ok.injEq, Prod.mk.injEq] at h
    · obtain ⟨hr, hfs, -⟩ := h
      subst hfs
      exact ⟨mem_insertPath_self _ _, h1, by rw [← hr]⟩
    · obtain ⟨hr, hfs, -⟩ := h
      subst hfs
      exact ⟨mem_insertPath_of_mem _ _ _ (mem_insertPath_self _ _),
        mem_insertPath_self _ _, by rw [← hr]⟩
    · obtain ⟨hr, hfs, -⟩ := h
      subst hfs
      exact ⟨mem_insertPath_of_mem _ _ _ (mem_insertPath_self _ _),
        mem_insertPath_self _ _, by rw [← hr]⟩
  obtain ⟨hpar, hwp, hr⟩ := hparent
  rw [createWorktree]
  rw [insertPath_eq_of_mem fs' _ hpar]
  rw [if_pos hwp, hr]

/-- Witness for C5 at a concrete first call that creates the worktree. -/
theorem c5_createWorktree_idempotent_witness :
    createWorktree ⟨"b".data, "r".data, "t".data, "main".data⟩
        (insertPath
          (insertPath ([] : FS) (worktreeParentOf "b".data "r".data))
          (worktreePathOf "b".data "r".data "t".data))
        [] true true
      = .ok (⟨worktreePathOf "b".data "r".data "t".data, "t".data, false⟩,
          insertPath
            (insertPath ([] : FS) (worktreeParentOf "b".data "r".data))
            (worktreePathOf "b".data "r".data "t".data),
          []) :=
  c5_createWorktree_idempotent ⟨"b".data, "r".data, "t".data, "main".data⟩
    [] [] true true _ _ _ (by rfl) [] true true

/-- C8: cleanupWorktree never propagates an error to its caller: for every
input it returns .ok; a missing workspace path is success with the
filesystem untouched; and a failing git removal is swallowed, also leaving
the filesystem untouched. -/
theorem c8_cleanupWorktree_never_throws (repoBasePath repoName branchName :
    List Char) (fs : FS) (removeOk pruneOk : Bool) :
    (cleanupWorktree repoBasePath repoName branchName fs removeOk
        pruneOk).isOk = true
    ∧ (worktreePathOf repoBasePath repoName branchName ∉ fs →
        cleanupWorktree repoBasePath repoName branchName fs removeOk pruneOk
          = .ok (fs, if pruneOk then [GitOp.prune] else []))
    ∧ (removeOk = false →
        cleanupWorktree repoBasePath repoName branchName fs removeOk pruneOk
          = .ok (fs, if pruneOk then [GitOp.prune] else [])) := by
  by_cases hmem : worktreePathOf repoBasePath repoName branchName ∈ fs <;>
    cases removeOk <;> cases pruneOk <;>
      simp [cleanupWorktree, tryCatchE, fsAccess, gitWorktreeRemove,
        gitWorktreePrune, hmem, Except.isOk, Except.toBool]

/-- Witness for C8 at a concrete input whose path is absent. -/
theorem c8_cleanupWorktree_never_throws_witness :
    (cleanupWorktree "b".data "r".data "t".data [] false true).isOk = true
    ∧ cleanupWorktree "b".data "r".data "t".data [] false true
        = .ok ([], [GitOp.prune]) := by
  have h := c8_cleanupWorktree_never_throws "b".data "r".data "t".data []
    false true
  refine ⟨h.1, ?_⟩
  have := h.2.1 (by simp)
  simpa using this

/-! ## Branch names (worktreeLifecycle.ts, generateBranchName) -/

/-- toLowerCase, applied per character (ASCII case mapping). -/
def jsToLower (s : List Char) : List Char :=
  s.map Char.toLower

/-- The character class [a-z0-9-]. -/
def allowedChar (c : Char) : Bool :=
  ('a' ≤ c && c ≤ 'z') || ('0' ≤ c && c ≤ '9') || c == '-'

/-- replace every character outside [a-z0-9-] with a hyphen. -/
def replaceDisallowed (s : List Char) : List Char :=
  s.map (fun c => if allowedChar c then c else '-')

/-- replace runs of hyphens with a single hyphen. -/
def collapseDashes : List Char → List Char
  | [] => []
  | [c] => [c]
  | c :: d :: rest =>
      if c = '-' ∧ d = '-' then collapseDashes (d :: rest)
      else c :: collapseDashes (d :: rest)

/-- Drop one leading hyphen (the anchored first alternative of the
edge-stripping replace). -/
def stripLeadDash : List Char → List Char
  | [] => []
  | c :: rest => if c = '-' then rest else c :: rest

/-- Drop one trailing hyphen (the anchored second alternative). -/
def stripTrailDash (s : List Char) : List Char :=
  match s.getLast? with
  | some c => if c = '-' then s.dropLast else s
  | none => s

/-- The whole sanitizing chain applied to the ticket id. -/
def sanitizeTicketId (ticketId : List Char) : List Char :=
  stripTrailDash (stripLeadDash (collapseDashes
    (replaceDisallowed (jsToLower ticketId))))

/-- generateBranchName from worktreeLifecycle.ts (prefix defaults to
feat at the call sites; it is a Lean keyword, hence pfx). -/
def generateBranchName (ticketId : List Char)
    (pfx : List Char := "feat".data) : List Char :=
  pfx ++ '/' :: sanitizeTicketId ticketId

/-- Two adjacent hyphens somewhere in the list. -/
def hasDoubleDash : List Char → Bool
  | c :: d :: rest => (c == '-' && d == '-') || hasDoubleDash (d :: rest)
  | _ => false

theorem mem_replaceDisallowed (s : List Char) (c : Char)
    (h : c ∈ replaceDisallowed s) : allowedChar c = true := by
  rw [replaceDisallowed] at h
  obtain ⟨a, -, ha⟩ := List.mem_map.mp h
  by_cases haa : allowedChar a
  · rw [if_pos haa] at ha
    rwa [← ha]
  · rw [if_neg haa] at ha
    rw [← ha]
    decide

theorem mem_collapseDashes (s : List Char) (c : Char)
    (h : c ∈ collapseDashes s) : c ∈ s := by
  induction s with
  | nil => simp [collapseDashes] at h
  | cons a rest ih =>
      cases rest with
      | nil => simpa [collapseDashes] using h
      | cons b rest2 =>
          rw [collapseDashes] at h
          split_ifs at h with hab
          · exact List.mem_cons_of_mem a (ih h)
          · rcases List.mem_cons.mp h with rfl | h2
            · exact List.mem_cons_self _ _
            · exact List.mem_cons_of_mem a (ih h2)

theorem head?_collapseDashes (a : Char) (rest : List Char) :
    (collapseDashes (a :: rest)).head? = some a := by
  induction rest generalizing a with
  | nil => rfl
  | cons b rest2 ih =>
      rw [collapseDashes]
      split_ifs with hab
      · rw [ih b]
        rw [hab.1, hab.2]
      · rfl

theorem hasDoubleDash_collapseDashes (s : List Char) :
    hasDoubleDash (collapseDashes s) = false := by
  induction s with
  | nil => rfl
  | cons a rest ih =>
      cases rest with
      | nil => rfl
      | cons b rest2 =>
          rw [collapseDashes]
          split_ifs with hab
          · exact ih
          · cases hL : collapseDashes (b :: rest2) with
            | nil => rfl
            | cons e L2 =>
                have he : e = b := by
                  have := head?_collapseDashes b rest2
                  rw [hL] at this
                  simpa using this
                rw [hasDoubleDash, ← hL, ih, Bool.or_false]
                rw [Bool.and_eq_false_iff]
                by_cases ha : a = '-'
                · right
                  have hb : e ≠ '-' := by
                    rw [he]
                    exact fun hb => hab ⟨ha, hb⟩
                  simpa using hb
                · left
                  simpa using ha

theorem hasDoubleDash_cons_false (a : Char) (l : List Char)
    (h : hasDoubleDash (a :: l) = false) : hasDoubleDash l = false := by
  cases l with
  | nil => rfl
  | cons b rest =>
      rw [hasDoubleDash, Bool.or_eq_false_iff] at h
      exact h.2

theorem hasDoubleDash_append_two (X : List Char) :
    hasDoubleDash (X ++ ['-', '-']) = true := by
  induction X with
  | nil => rfl
  | cons a rest ih =>
      cases rest with
      | nil =>
          simp only [List.cons_append, List.nil_append]
          rw [hasDoubleDash, show hasDoubleDash ['-', '-'] = true from rfl,
            Bool.or_true]
      | cons b r2 =>
          simp only [List.cons_append] at ih ⊢
          rw [hasDoubleDash, ih, Bool.or_true]

theorem eq_dropLast_append_of_getLast? (l : List Char) (c : Char)
    (h : l.getLast? = some c) : l = l.dropLast ++ [c] := by
  induction l using List.reverseRecOn with
  | nil => simp at h
  | append_singleton mid last ih =>
      clear ih
      rw [List.getLast?_concat] at h
      obtain rfl : last = c := by simpa using h
      rw [List.dropLast_concat]

theorem hasDoubleDash_dropLast (l : List Char)
    (h : hasDoubleDash l = false) : hasDoubleDash l.dropLast = false := by
  induction l with
  | nil => rfl
  | cons a rest ih =>
      cases rest with
      | nil => rfl
      | cons b rest2 =>
          rw [List.dropLast_cons₂]
          rw [hasDoubleDash, Bool.or_eq_false_iff] at h
          have h2 := ih h.2
          cases h3 : (b :: rest2).dropLast with
          | nil => rfl
          | cons e L2 =>
              have he : e = b := by
                cases rest2 with
                | nil => simp at h3
                | cons c2 r3 =>
                    rw [List.dropLast_cons₂] at h3
                    exact (List.cons.inj h3).1.symm
              subst he
              rw [h3] at h2
              rw [hasDoubleDash, h2, Bool.or_false]
              exact h.1

theorem mem_stripLeadDash (l : List Char) (c : Char)
    (h : c ∈ stripLeadDash l) : c ∈ l := by
  cases l with
  | nil => simp [stripLeadDash] at h
  | cons a rest =>
      rw [stripLeadDash] at h
      split_ifs at h
      · exact List.mem_cons_of_mem a h
      · exact h

theorem hasDoubleDash_stripLeadDash (l : List Char)
    (h : hasDoubleDash l = false) :
    hasDoubleDash (stripLeadDash l) = false := by
  cases l with
  | nil => rfl
  | cons a rest =>
      rw [stripLeadDash]
      split_ifs
      · exact hasDoubleDash_cons_false a rest h
      · exact h

theorem head?_stripLeadDash (l : List Char)
    (h : hasDoubleDash l = false) :
    (stripLeadDash l).head? ≠ some '-' := by
  cases l with
  | nil => simp [stripLeadDash]
  | cons a rest =>
      rw [stripLeadDash]
      split_ifs with ha
      · cases rest with
        | nil => simp
        | cons b r2 =>
            rw [hasDoubleDash, Bool.or_eq_false_iff] at h
            have hb := h.1
            rw [ha] at hb
            simp only [beq_self_eq_true, Bool.true_and, beq_eq_false_iff_ne,
              ne_eq] at hb
            simpa using hb
      · simpa using ha

theorem mem_stripTrailDash (l : List Char) (c : Char)
    (h : c ∈ stripTrailDash l) : c ∈ l := by
  rw [stripTrailDash] at h
  split at h
  · split_ifs at h
    · exact (List.dropLast_prefix l).subset h
    · exact h
  · exact h

theorem hasDoubleDash_stripTrailDash (l : List Char)
    (h : hasDoubleDash l = false) :
    hasDoubleDash (stripTrailDash l) = false := by
  rw [stripTrailDash]
  split
  · split_ifs
    · exact hasDoubleDash_dropLast l h
    · exact h
  · exact h

theorem head?_stripTrailDash (l : List Char) :
    (stripTrailDash l).head? = l.head? ∨ stripTrailDash l = [] := by
  rw [stripTrailDash]
  split
  · split_ifs with he
    · cases l with
      | nil => right; rfl
      | cons a rest =>
          cases rest with
          | nil => right; rfl
          | cons b r2 =>
              left
              rw [List.dropLast_cons₂]
              rfl
    · left; rfl
  · left; rfl

theorem getLast?_stripTrailDash (l : List Char)
    (h : hasDoubleDash l = false) :
    (stripTrailDash l).getLast? ≠ some '-' := by
  rw [stripTrailDash]
  split
  · rename_i e hg
    split_ifs with he
    · subst he
      intro hcontra
      have hl : l = l.dropLast ++ ['-'] :=
        eq_dropLast_append_of_getLast? l '-' hg
      have hl2 : l.dropLast = l.dropLast.dropLast ++ ['-'] :=
        eq_dropLast_append_of_getLast? l.dropLast '-' hcontra
      have hdd : l = l.dropLast.dropLast ++ ['-', '-'] := by
        rw [hl2] at hl
        rw [List.append_assoc] at hl
        exact hl
      rw [hdd, hasDoubleDash_append_two] at h
      exact Bool.noConfusion h
    · intro hcontra
      rw [hg] at hcontra
      exact he (by simpa using hcontra)
  · rename_i hg
    rw [List.getLast?_eq_none_iff] at hg
    subst hg
    simp

theorem allowedChar_not_upper_not_space (c : Char)
    (h : allowedChar c = true) : ¬ ('A' ≤ c ∧ c ≤ 'Z') ∧ c ≠ ' ' := by
  rw [allowedChar] at h
  simp only [Bool.or_eq_true, Bool.and_eq_true, decide_eq_true_eq,
    beq_iff_eq] at h
  constructor
  · rintro ⟨hA, hZ⟩
    rcases h with (h | h) | h
    · exact absurd (le_trans h.1 hZ) (by decide)
    · exact absurd (le_trans hA h.2) (by decide)
    · subst h
      exact absurd hA (by decide)
  · intro hsp
    subst hsp
    rcases h with (h | h) | h
    · exact absurd h.1 (by decide)
    · exact absurd h.1 (by decide)
    · exact absurd h (by decide)

theorem mem_sanitizeTicketId (ticketId : List Char) (c : Char)
    (h : c ∈ sanitizeTicketId ticketId) : allowedChar c = true :=
  mem_replaceDisallowed _ _
    (mem_collapseDashes _ _
      (mem_stripLeadDash _ _
        (mem_stripTrailDash _ _ h)))

/-- C10: generateBranchName returns the prefix, a slash, and the sanitized
ticket id; the sanitized part consists only of characters in [a-z0-9-]
(hence never an uppercase letter or a space), contains no two adjacent
hyphens, and neither starts nor ends with a hyphen. -/
theorem c10_generateBranchName_shape (ticketId pfx : List Char) :
    generateBranchName ticketId pfx = pfx ++ '/' :: sanitizeTicketId ticketId
    ∧ (∀ c ∈ sanitizeTicketId ticketId, allowedChar c = true)
    ∧ (∀ c ∈ sanitizeTicketId ticketId, ¬ ('A' ≤ c ∧ c ≤ 'Z') ∧ c ≠ ' ')
    ∧ hasDoubleDash (sanitizeTicketId ticketId) = false
    ∧ (sanitizeTicketId ticketId).head? ≠ some '-'
    ∧ (sanitizeTicketId ticketId).getLast? ≠ some '-' := by
  have hdd0 : hasDoubleDash (collapseDashes
      (replaceDisallowed (jsToLower ticketId))) = false :=
    hasDoubleDash_collapseDashes _
  have hdd1 : hasDoubleDash (stripLeadDash (collapseDashes
      (replaceDisallowed (jsToLower ticketId)))) = false :=
    hasDoubleDash_stripLeadDash _ hdd0
  refine ⟨rfl, mem_sanitizeTicketId ticketId,
    fun c hc => allowedChar_not_upper_not_space c
      (mem_sanitizeTicketId ticketId c hc),
    hasDoubleDash_stripTrailDash _ hdd1, ?_, getLast?_stripTrailDash _ hdd1⟩
  rcases head?_stripTrailDash (stripLeadDash (collapseDashes
      (replaceDisallowed (jsToLower ticketId)))) with hsame | hnil
  · rw [sanitizeTicketId, hsame]
    exact head?_stripLeadDash _ hdd0
  · rw [sanitizeTicketId, hnil]
    simp

/-- Witness for C10 at a concrete ticket id with uppercase letters, a
space, and hyphen runs. -/
theorem c10_generateBranchName_shape_witness :
    generateBranchName "AB c--1-".data "feat".data
      = "feat".data ++ '/' :: sanitizeTicketId "AB c--1-".data
    ∧ hasDoubleDash (sanitizeTicketId "AB c--1-".data) = false
    ∧ (sanitizeTicketId "AB c--1-".data).head? ≠ some '-'
    ∧ (sanitizeTicketId "AB c--1-".data).getLast? ≠ some '-' :=
  ⟨(c10_generateBranchName_shape "AB c--1-".data "feat".data).1,
    (c10_generateBranchName_shape "AB c--1-".data "feat".data).2.2.2.1,
    (c10_generateBranchName_shape "AB c--1-".data "feat".data).2.2.2.2.1,
    (c10_generateBranchName_shape "AB c--1-".data "feat".data).2.2.2.2.2⟩

/-! ## Stop-signal handling (src/app.ts, handleStopSignal) -/

/-- Linear agent-activity kinds used by the handlers. -/
inductive ActKind
  | thought
  | action
  | response
  | errorAct
  | elicitation
deriving DecidableEq, Repr

/-- The fixed stop acknowledgment text. -/
def stopAckBody : List Char := "Execution stopped as requested".data

/-- One observable effect of the orchestration code. -/
inductive TraceEvt
  | registered (sessionId : String)
  | unregistered (sessionId : String)
  | git (op : GitOp)
  | notify (kind : ActKind) (body : List Char)
deriving DecidableEq, Repr

/-- worktreePath.split("/").pop() || "": the characters after the last
slash. -/
def lastComponent (p : List Char) : List Char :=
  (p.reverse.takeWhile (fun c => decide (c ≠ '/'))).reverse

theorem takeWhile_append_stop (p : Char → Bool) (l1 l2 : List Char) (x : Char)
    (h1 : ∀ c ∈ l1, p c = true) (hx : p x = false) :
    (l1 ++ x :: l2).takeWhile p = l1 := by
  induction l1 with
  | nil =>
      rw [List.nil_append, List.takeWhile_cons, hx]
      rfl
  | cons a l1 ih =>
      have ha := h1 a (List.mem_cons_self a l1)
      rw [List.cons_append, List.takeWhile_cons, ha]
      simp only [if_true]
      rw [ih (fun c hc => h1 c (List.mem_cons_of_mem a hc))]

theorem lastComponent_append_slash (xs branch : List Char)
    (h : '/' ∉ branch) : lastComponent (xs ++ '/' :: branch) = branch := by
  rw [lastComponent, List.reverse_append, List.reverse_cons, List.append_assoc,
    List.singleton_append]
  rw [takeWhile_append_stop _ branch.reverse xs.reverse '/'
    (fun c hc => by
      simp only [decide_eq_true_eq]
      intro hcc
      subst hcc
      exact h (List.mem_reverse.mp hc))
    (by simp)]
  rw [List.reverse_reverse]

theorem lastComponent_worktreePathOf (repoBasePath repoName branchName :
    List Char) (h : '/' ∉ branchName) :
    lastComponent (worktreePathOf repoBasePath repoName branchName)
      = branchName := by
  have hshape : worktreePathOf repoBasePath repoName branchName
      = (repoBasePath ++ sep ++ dotWorktrees ++ sep ++ repoName)
        ++ '/' :: branchName := by
    rw [worktreePathOf]
    simp [sep, List.append_assoc]
  rw [hshape]
  exact lastComponent_append_slash _ branchName h

theorem cleanupWorktree_ok (repoBasePath repoName branchName : List Char)
    (fs : FS) (removeOk pruneOk : Bool) :
    ∃ fs2 ops, cleanupWorktree repoBasePath repoName branchName fs removeOk
      pruneOk = .ok (fs2, ops) := by
  by_cases hmem : worktreePathOf repoBasePath repoName branchName ∈ fs <;>
    cases removeOk <;> cases pruneOk <;>
      simp [cleanupWorktree, tryCatchE, fsAccess, gitWorktreeRemove,
        gitWorktreePrune, hmem]

theorem cleanupWorktree_removes (repoBasePath repoName branchName : List Char)
    (fs : FS) (pruneOk : Bool) (fs2 : FS) (ops : List GitOp)
    (h : cleanupWorktree repoBasePath repoName branchName fs true pruneOk
      = .ok (fs2, ops)) :
    worktreePathOf repoBasePath repoName branchName ∉ fs2 := by
  by_cases hmem : worktreePathOf repoBasePath repoName branchName ∈ fs <;>
    cases pruneOk <;>
      simp [cleanupWorktree, tryCatchE, fsAccess, gitWorktreeRemove,
        gitWorktreePrune, hmem] at h <;>
    rw [← h.1] <;>
    first
      | exact not_mem_removePath fs _
      | exact hmem

/-- The observable outcome of handleStopSignal: the registry and filesystem
afterwards, the session ids whose AbortControllers were fired, and the
trace of git commands and Linear notifications in order. -/
structure StopOutcome where
  registry : Registry
  fs : FS
  signalled : List String
  trace : List TraceEvt
deriving DecidableEq, Repr

/-- handleStopSignal from src/app.ts: look the session up; when present,
fire its abort controller, remove its worktree (extracting the branch name
as the last path component, inside a try/catch), and unregister; in every
case log one stop-acknowledgment Response to Linear. -/
def handleStopSignal (reg : Registry) (fs : FS)
    (repoBasePath repoName : List Char) (removeOk pruneOk : Bool)
    (sessionId : String) : StopOutcome :=
  match SessionRegistry.get reg sessionId with
  | some session =>
      let signalled := [sessionId]
      let cleaned : FS × List TraceEvt :=
        match session.worktreePath with
        | some worktreePath =>
            let branchName := lastComponent worktreePath
            match cleanupWorktree repoBasePath repoName branchName fs
                removeOk pruneOk with
            | .ok (fs2, ops) => (fs2, ops.map TraceEvt.git)
            | .error _ => (fs, [])
        | none => (fs, [])
      { registry := (SessionRegistry.unregister reg sessionId).1,
        fs := cleaned.1,
        signalled := signalled,
        trace := cleaned.2
          ++ [.unregistered sessionId, .notify .response stopAckBody] }
  | none =>
      { registry := reg, fs := fs, signalled := [],
        trace := [.notify .response stopAckBody] }

theorem count_notify_map_git (ops : List GitOp) (kind : ActKind)
    (body : List Char) :
    (ops.map TraceEvt.git).count (TraceEvt.notify kind body) = 0 := by
  rw [List.count_eq_zero]
  intro hmem
  obtain ⟨op, -, hop⟩ := List.mem_map.mp hmem
  exact TraceEvt.noConfusion hop

/-- C6: delivering a stop event for a registered session S whose bound
workspace sits at the canonical worktree location fires S's cancellation
signal, removes the workspace from disk, leaves the registry without S,
and emits exactly one "stopped as requested" acknowledgment. -/
theorem c6_stop_event (reg : Registry) (fs : FS)
    (repoBasePath repoName branchName : List Char) (pruneOk : Bool)
    (sessionId : String) (session : ActiveSession)
    (hreg : SessionRegistry.get reg sessionId = some session)
    (hwp : session.worktreePath
      = some (worktreePathOf repoBasePath repoName branchName))
    (hbr : '/' ∉ branchName) :
    sessionId ∈ (handleStopSignal reg fs repoBasePath repoName true pruneOk
        sessionId).signalled
    ∧ SessionRegistry.get
        (handleStopSignal reg fs repoBasePath repoName true pruneOk
          sessionId).registry sessionId = none
    ∧ worktreePathOf repoBasePath repoName branchName
        ∉ (handleStopSignal reg fs repoBasePath repoName true pruneOk
            sessionId).fs
    ∧ (handleStopSignal reg fs repoBasePath repoName true pruneOk
        sessionId).trace.count (TraceEvt.notify .response stopAckBody) = 1 := by
  obtain ⟨fs2, ops, hclean⟩ :=
    cleanupWorktree_ok repoBasePath repoName branchName fs true pruneOk
  have hrm : worktreePathOf repoBasePath repoName branchName ∉ fs2 :=
    cleanupWorktree_removes repoBasePath repoName branchName fs pruneOk fs2
      ops hclean
  rw [handleStopSignal, hreg]
  simp only [hwp, lastComponent_worktreePathOf repoBasePath repoName
    branchName hbr, hclean]
  refine ⟨List.mem_singleton.mpr rfl, ?_, hrm, ?_⟩
  · exact JsMap.get?_delete_self reg sessionId
  · rw [List.count_append, count_notify_map_git]
    rfl

/-- A registered session bound to the canonical worktree path, for the C6
witness. -/
def sessW3 : ActiveSession :=
  { sessionId := "s", ticketId := "T-9", worktreePath :=
      some (worktreePathOf "b".data "r".data "t".data),
    startedAt := 0, interactionType := .issue_assignment }

/-- Witness for C6 at a concrete one-session registry. -/
theorem c6_stop_event_witness :
    "s" ∈ (handleStopSignal [("s", sessW3)]
        [worktreePathOf "b".data "r".data "t".data] "b".data "r".data true
        true "s").signalled
    ∧ SessionRegistry.get (handleStopSignal [("s", sessW3)]
        [worktreePathOf "b".data "r".data "t".data] "b".data "r".data true
        true "s").registry "s" = none
    ∧ worktreePathOf "b".data "r".data "t".data
        ∉ (handleStopSignal [("s", sessW3)]
            [worktreePathOf "b".data "r".data "t".data] "b".data "r".data
            true true "s").fs
    ∧ (handleStopSignal [("s", sessW3)]
        [worktreePathOf "b".data "r".data "t".data] "b".data "r".data true
        true "s").trace.count (TraceEvt.notify .response stopAckBody) = 1 :=
  c6_stop_event [("s", sessW3)] [worktreePathOf "b".data "r".data "t".data]
    "b".data "r".data "t".data true "s" sessW3 rfl rfl (by decide)

/-! ## Orchestration of an assignment session (src/app.ts +
agentClient.handleIssueAssignment) -/

theorem createWorktree_ok_mem (config : WorktreeConfig) (fs : FS)
    (remoteBranches : List (List Char)) (fetchOk addOk : Bool)
    (r : WorktreeResult) (fs' : FS) (ops : List GitOp)
    (h : createWorktree config fs remoteBranches fetchOk addOk
      = .ok (r, fs', ops)) :
    worktreePathOf config.repoBasePath config.repoName config.branchName ∈ fs'
    ∧ ∀ p, GitOp.worktreeRemove p ∉ ops := by
  rw [createWorktree] at h
  split_ifs at h with h1 h2 h3 h4 <;>
    simp only [Except.ok.injEq, Prod.mk.injEq] at h
  · obtain ⟨-, hfs, hops⟩ := h
    subst hfs
    subst hops
    exact ⟨h1, fun p hp => by simp at hp⟩
  · obtain ⟨-, hfs, hops⟩ := h
    subst hfs
    subst hops
    refine ⟨mem_insertPath_self _ _, fun p hp => ?_⟩
    rcases List.mem_cons.mp hp with hq | hq
    · exact GitOp.noConfusion hq
    · rw [List.mem_singleton] at hq
      exact GitOp.noConfusion hq
  · obtain ⟨-, hfs, hops⟩ := h
    subst hfs
    subst hops
    refine ⟨mem_insertPath_self _ _, fun p hp => ?_⟩
    rcases List.mem_cons.mp hp with hq | hq
    · exact GitOp.noConfusion hq
    · rw [List.mem_singleton] at hq
      exact GitOp.noConfusion hq

/-- The first Thought body posted by handleIssueAssignment. -/
def analyzingBody : List Char :=
  "Analyzing the implementation plan and preparing to execute...".data

/-- branchName: ticket-(ticket identifier). -/
def ticketBranch (ticketIdChars : List Char) : List Char :=
  "ticket-".data ++ ticketIdChars

/-- baseBranch: main. -/
def mainBranch : List Char := "main".data

/-- handleAgentSessionEvent (assignment path) composed with
handleIssueAssignment: skip when the session id is already registered;
otherwise register, post the opening Thought, create the worktree, run the
agent (its success is the agentSuccess oracle), post the final Response or
Error, and unregister in the finally block.  The worktree is never removed
on this path. -/
def handleAgentSessionEvent (reg0 : Registry) (fs0 : FS)
    (repoBasePath repoName : List Char) (remoteBranches : List (List Char))
    (fetchOk addOk agentSuccess : Bool) (sessionId ticketId : String)
    (ticketIdChars : List Char) (startedAt : Nat) (finalBody : List Char) :
    Registry × FS × List TraceEvt :=
  if SessionRegistry.has reg0 sessionId then (reg0, fs0, [])
  else
    let reg1 := SessionRegistry.register reg0
      { sessionId := sessionId, ticketId := ticketId, worktreePath := none,
        startedAt := startedAt, interactionType := .issue_assignment }
    let pre : List TraceEvt :=
      [.registered sessionId, .notify .thought analyzingBody]
    match createWorktree
        { repoBasePath := repoBasePath, repoName := repoName,
          branchName := ticketBranch ticketIdChars, baseBranch := mainBranch }
        fs0 remoteBranches fetchOk addOk with
    | .ok (_res, fs1, ops) =>
        let finKind := if agentSuccess then ActKind.response
          else ActKind.errorAct
        ((SessionRegistry.unregister reg1 sessionId).1, fs1,
          pre ++ ops.map TraceEvt.git
            ++ [.notify finKind finalBody, .unregistered sessionId])
    | .error _ =>
        ((SessionRegistry.unregister reg1 sessionId).1, fs0,
          pre ++ [.notify .errorAct finalBody, .unregistered sessionId])

/-- A concrete successful assignment run for the C2 counterexample. -/
def c2RunW : Registry × FS × List TraceEvt :=
  handleAgentSessionEvent [] [] "b".data "r".data [] true true true "s1"
    "T-1" "T-1".data 0 "done".data

/-- C2 counterexample: a session that completes successfully reaches its
terminal state (the last trace event is the unregistration) with its bound
workspace still present on disk, and the final Response notification
happens before, not after, the unregistration — the workspace is only
released on the stop path. -/
theorem c2_terminal_worktree_counterexample :
    c2RunW.2.2.getLast? = some (TraceEvt.unregistered "s1")
    ∧ worktreePathOf "b".data "r".data (ticketBranch "T-1".data) ∈ c2RunW.2.1
    ∧ SessionRegistry.get c2RunW.1 "s1" = none := by
  refine ⟨by decide, by decide, by decide⟩

/-- membership helper: the assignment-path trace contains no worktree
removal when the creation step issued none. -/
theorem no_remove_in_assignment_trace (sessionId : String)
    (body1 body2 : List Char) (k1 k2 : ActKind) (ops : List GitOp)
    (hops : ∀ p, GitOp.worktreeRemove p ∉ ops) (p : List Char) :
    TraceEvt.git (GitOp.worktreeRemove p)
      ∉ ([TraceEvt.registered sessionId, TraceEvt.notify k1 body1]
          ++ ops.map TraceEvt.git
          ++ [TraceEvt.notify k2 body2, TraceEvt.unregistered sessionId]) := by
  intro hmem
  rcases List.mem_append.mp hmem with hmem | hmem
  · rcases List.mem_append.mp hmem with hmem | hmem
    · rcases List.mem_cons.mp hmem with h | h
      · exact TraceEvt.noConfusion h
      · rcases List.mem_cons.mp h with h | h
        · exact TraceEvt.noConfusion h
        · exact List.not_mem_nil _ h
    · obtain ⟨op, hop, hq⟩ := List.mem_map.mp hmem
      injection hq with h2
      subst h2
      exact hops p hop
  · rcases List.mem_cons.mp hmem with h | h
    · exact TraceEvt.noConfusion h
    · rcases List.mem_cons.mp h with h | h
      · exact TraceEvt.noConfusion h
      · exact List.not_mem_nil _ h

/-- C2 amended: on every terminal path the sessionId is absent from the
registry afterwards.  On the success/error completion path the final ticket
notification (success summary or error detail) precedes the unregistration,
which is the last effect, and the bound workspace is never removed from
disk — it remains present whenever worktree creation succeeded.  Release of
the workspace before unregistration before the final notification holds
only on the explicit-stop path, whose trace is exactly the git cleanup
commands, then the unregistration, then the stop acknowledgment. -/
theorem c2_terminal_cleanup_amended :
    (∀ (reg0 : Registry) (fs0 : FS) (repoBasePath repoName : List Char)
        (remoteBranches : List (List Char))
        (fetchOk addOk agentSuccess : Bool) (sessionId ticketId : String)
        (ticketIdChars : List Char) (startedAt : Nat) (finalBody : List Char)
        (regOut : Registry) (fsOut : FS) (tr : List TraceEvt),
        SessionRegistry.has reg0 sessionId = false →
        handleAgentSessionEvent reg0 fs0 repoBasePath repoName remoteBranches
            fetchOk addOk agentSuccess sessionId ticketId ticketIdChars
            startedAt finalBody = (regOut, fsOut, tr) →
        SessionRegistry.get regOut sessionId = none
        ∧ tr.getLast? = some (TraceEvt.unregistered sessionId)
        ∧ (∃ kind, (kind = ActKind.response ∨ kind = ActKind.errorAct)
            ∧ TraceEvt.notify kind finalBody ∈ tr.dropLast)
        ∧ (∀ p, TraceEvt.git (GitOp.worktreeRemove p) ∉ tr)
        ∧ (∀ r fs1 ops,
            createWorktree
                { repoBasePath := repoBasePath, repoName := repoName,
                  branchName := ticketBranch ticketIdChars,
                  baseBranch := mainBranch } fs0 remoteBranches fetchOk addOk
              = .ok (r, fs1, ops) →
            worktreePathOf repoBasePath repoName (ticketBranch ticketIdChars)
              ∈ fsOut))
    ∧ (∀ (reg : Registry) (fs : FS) (repoBasePath repoName : List Char)
        (removeOk pruneOk : Bool) (sessionId : String)
        (session : ActiveSession),
        SessionRegistry.get reg sessionId = some session →
        ∃ ops, (handleStopSignal reg fs repoBasePath repoName removeOk
            pruneOk sessionId).trace
          = List.map TraceEvt.git ops
            ++ [TraceEvt.unregistered sessionId,
              TraceEvt.notify .response stopAckBody]) := by
  constructor
  · intro reg0 fs0 repoBasePath repoName remoteBranches fetchOk addOk
      agentSuccess sessionId ticketId ticketIdChars startedAt finalBody
      regOut fsOut tr hhas heq
    rw [handleAgentSessionEvent, hhas] at heq
    simp only [Bool.false_eq_true, if_false] at heq
    cases hcw : createWorktree
        { repoBasePath := repoBasePath, repoName := repoName,
          branchName := ticketBranch ticketIdChars,
          baseBranch := mainBranch } fs0 remoteBranches fetchOk addOk with
    | ok out =>
        obtain ⟨r0, fs1, ops⟩ := out
        rw [hcw] at heq
        simp only [Prod.mk.injEq] at heq
        obtain ⟨hreg, hfs, htr⟩ := heq
        subst hreg
        subst hfs
        subst htr
        obtain ⟨hmem, hnorm⟩ := createWorktree_ok_mem _ _ _ _ _ _ _ _ hcw
        refine ⟨JsMap.get?_delete_self _ sessionId, ?_, ?_,
          no_remove_in_assignment_trace sessionId analyzingBody finalBody
            .thought _ ops hnorm,
          fun r fs1b opsb hb => hmem⟩
        · rw [show ([TraceEvt.registered sessionId,
              TraceEvt.notify .thought analyzingBody]
                ++ ops.map TraceEvt.git
                ++ [TraceEvt.notify
                    (if agentSuccess then ActKind.response
                      else ActKind.errorAct) finalBody,
                  TraceEvt.unregistered sessionId])
              = (([TraceEvt.registered sessionId,
                  TraceEvt.notify .thought analyzingBody]
                    ++ ops.map TraceEvt.git
                    ++ [TraceEvt.notify
                        (if agentSuccess then ActKind.response
                          else ActKind.errorAct) finalBody])
                  ++ [TraceEvt.unregistered sessionId]) by
            simp [List.append_assoc]]
          rw [List.getLast?_concat]
        · refine ⟨if agentSuccess then ActKind.response else ActKind.errorAct,
            by cases agentSuccess <;> simp, ?_⟩
          rw [show ([TraceEvt.registered sessionId,
              TraceEvt.notify .thought analyzingBody]
                ++ ops.map TraceEvt.git
                ++ [TraceEvt.notify
                    (if agentSuccess then ActKind.response
                      else ActKind.errorAct) finalBody,
                  TraceEvt.unregistered sessionId])
              = (([TraceEvt.registered sessionId,
                  TraceEvt.notify .thought analyzingBody]
                    ++ ops.map TraceEvt.git
                    ++ [TraceEvt.notify
                        (if agentSuccess then ActKind.response
                          else ActKind.errorAct) finalBody])
                  ++ [TraceEvt.unregistered sessionId]) by
            simp [List.append_assoc]]
          rw [List.dropLast_concat]
          refine List.mem_append.mpr (Or.inr ?_)
          exact List.mem_singleton.mpr rfl
    | error e =>
        rw [hcw] at heq
        simp only [Prod.mk.injEq] at heq
        obtain ⟨hreg, hfs, htr⟩ := heq
        subst hreg
        subst hfs
        subst htr
        refine ⟨JsMap.get?_delete_self _ sessionId, rfl, ?_, ?_,
          fun r fs1b opsb hb => Except.noConfusion hb⟩
        · refine ⟨ActKind.errorAct, Or.inr rfl, ?_⟩
          simp
        · intro p hp
          rcases List.mem_append.mp hp with h | h
          · rcases List.mem_cons.mp h with h | h
            · exact TraceEvt.noConfusion h
            · rcases List.mem_cons.mp h with h | h
              · exact TraceEvt.noConfusion h
              · exact List.not_mem_nil _ h
          · rcases List.mem_cons.mp h with h | h
            · exact TraceEvt.noConfusion h
            · rcases List.mem_cons.mp h with h | h
              · exact TraceEvt.noConfusion h
              · exact List.not_mem_nil _ h
  · intro reg fs repoBasePath repoName removeOk pruneOk sessionId session
      hreg
    rw [handleStopSignal, hreg]
    cases hwp : session.worktreePath with
    | none =>
        simp only [hwp]
        exact ⟨[], rfl⟩
    | some worktreePath =>
        obtain ⟨fs2, ops, hclean⟩ := cleanupWorktree_ok repoBasePath repoName
          (lastComponent worktreePath) fs removeOk pruneOk
        simp only [hwp, hclean]
        exact ⟨ops, rfl⟩

/-- Witness for C2's amended theorem at a concrete run of each path. -/
theorem c2_terminal_cleanup_amended_witness :
    (SessionRegistry.get c2RunW.1 "s1" = none
      ∧ c2RunW.2.2.getLast? = some (TraceEvt.unregistered "s1")
      ∧ (∃ kind, (kind = ActKind.response ∨ kind = ActKind.errorAct)
          ∧ TraceEvt.notify kind "done".data ∈ c2RunW.2.2.dropLast)
      ∧ (∀ p, TraceEvt.git (GitOp.worktreeRemove p) ∉ c2RunW.2.2)
      ∧ (∀ r fs1 ops,
          createWorktree
              { repoBasePath := "b".data, repoName := "r".data,
                branchName := ticketBranch "T-1".data,
                baseBranch := mainBranch } [] [] true true
            = .ok (r, fs1, ops) →
          worktreePathOf "b".data "r".data (ticketBranch "T-1".data)
            ∈ c2RunW.2.1))
    ∧ (∃ ops, (handleStopSignal [("s", sessW3)] [] "b".data "r".data true
          true "s").trace
        = List.map TraceEvt.git ops
          ++ [TraceEvt.unregistered "s",
            TraceEvt.notify .response stopAckBody]) :=
  ⟨c2_terminal_cleanup_amended.1 [] [] "b".data "r".data [] true true true
      "s1" "T-1" "T-1".data 0 "done".data c2RunW.1 c2RunW.2.1 c2RunW.2.2
      (by decide) rfl,
    c2_terminal_cleanup_amended.2 [("s", sessW3)] [] "b".data "r".data true
      true "s" sessW3 rfl⟩

/-! ## Input channel (src/specs/user-input.md) -/

/-- Modelled from the spec: the InputChannel of specs/user-input.md and
spec section 4.5 is not implemented under src (only planned there); this
model follows the deferred-promise design the spec describes: a FIFO
queue, at most one suspended consumer, and a closed flag. -/
structure Channel (α : Type) where
  queue : List α
  waiter : Bool
  closed : Bool
deriving DecidableEq, Repr

/-- The channel starts with the original prompt pre-enqueued. -/
def Channel.init (prompt : α) : Channel α :=
  { queue := [prompt], waiter := false, closed := false }

/-- What a pull observes. -/
inductive PullResult (α : Type)
  | value (v : α)
  | suspended
  | closedEnd
deriving DecidableEq, Repr

/-- push: if a consumer is currently suspended, resolve it immediately
with the value (second component); otherwise append to the queue. -/
def Channel.push (ch : Channel α) (v : α) : Channel α × Option α :=
  if ch.waiter then ({ ch with waiter := false }, some v)
  else ({ ch with queue := ch.queue ++ [v] }, none)

/-- pull: the next queued value, or the end of a closed channel, or
suspension until the next push or close. -/
def Channel.pull (ch : Channel α) : Channel α × PullResult α :=
  match ch.queue with
  | v :: rest => ({ ch with queue := rest }, .value v)
  | [] =>
      if ch.closed then (ch, .closedEnd)
      else ({ ch with waiter := true }, .suspended)

/-- close: ends the sequence; an outstanding pull is resolved with the
end of the stream. -/
def Channel.close (ch : Channel α) : Channel α :=
  { ch with waiter := false, closed := true }

/-- Push a list of values in order, with no consumer pulling. -/
def Channel.pushAll (ch : Channel α) (vs : List α) : Channel α :=
  vs.foldl (fun c v => (c.push v).1) ch

/-- Pull n times, collecting the delivered values in order. -/
def Channel.pullN (ch : Channel α) : Nat → List α × Channel α
  | 0 => ([], ch)
  | n + 1 =>
      match ch.pull with
      | (ch2, .value v) =>
          let rest := ch2.pullN n
          (v :: rest.1, rest.2)
      | (ch2, _) => ([], ch2)

theorem pushAll_no_waiter (vs : List α) :
    ∀ ch : Channel α, ch.waiter = false →
      (ch.pushAll vs).queue = ch.queue ++ vs
      ∧ (ch.pushAll vs).waiter = false := by
  induction vs with
  | nil => intro ch hw; exact ⟨(List.append_nil ch.queue).symm, hw⟩
  | cons v rest ih =>
      intro ch hw
      rw [Channel.pushAll, List.foldl_cons]
      have hstep : (ch.push v).1 = { ch with queue := ch.queue ++ [v] } := by
        rw [Channel.push, hw]
        rfl
      rw [hstep]
      obtain ⟨hq, hw2⟩ := ih { ch with queue := ch.queue ++ [v] } hw
      refine ⟨?_, hw2⟩
      rw [Channel.pushAll] at hq
      rw [hq]
      simp [List.append_assoc]

theorem pullN_drains_queue (q : List α) :
    ∀ ch : Channel α, ch.queue = q → (ch.pullN q.length).1 = q := by
  induction q with
  | nil => intro ch hq; rfl
  | cons v rest ih =>
      intro ch hq
      rw [List.length_cons, Channel.pullN, Channel.pull, hq]
      dsimp only
      rw [ih { ch with queue := rest } rfl]

/-- C9: the input channel starts with the original prompt pre-enqueued;
values pushed before any pull are delivered in push order after the
prompt; a pull on an empty open channel suspends; a push while a consumer
is suspended resolves that consumer immediately with the pushed value; a
close while a consumer is suspended resolves it with the end of the
stream. -/
theorem c9_input_channel (α : Type) (p : α) (vs : List α)
    (ch : Channel α) (v : α) :
    (Channel.init p).queue = [p]
    ∧ (((Channel.init p).pushAll vs).pullN (vs.length + 1)).1 = p :: vs
    ∧ (ch.queue = [] → ch.closed = false →
        ch.pull = ({ ch with waiter := true }, .suspended))
    ∧ (ch.waiter = true →
        ch.push v = ({ ch with waiter := false }, some v))
    ∧ (ch.waiter = true → (Channel.close ch).waiter = false
        ∧ (Channel.close ch).closed = true) := by
  refine ⟨rfl, ?_, ?_, ?_, fun _ => ⟨rfl, rfl⟩⟩
  · obtain ⟨hq, -⟩ := pushAll_no_waiter vs (Channel.init p) rfl
    have hlen : vs.length + 1 = (p :: vs).length := by
      rw [List.length_cons]
    rw [hlen]
    exact pullN_drains_queue (p :: vs) _ (by rw [hq]; rfl)
  · intro hq hc
    rw [Channel.pull, hq, hc]
    rfl
  · intro hw
    rw [Channel.push, hw]
    rfl

/-- The suspended channel used by the C9 witness. -/
def chW : Channel Nat :=
  { queue := [], waiter := true, closed := false }

/-- Witness for C9 over natural numbers. -/
theorem c9_input_channel_witness :
    (Channel.init 0).queue = [0]
    ∧ (((Channel.init 0).pushAll [1, 2]).pullN 3).1 = [0, 1, 2]
    ∧ Channel.pull { chW with queue := [] }
        = ({ chW with waiter := true }, .suspended)
    ∧ Channel.push chW 7 = ({ chW with waiter := false }, some 7)
    ∧ (Channel.close chW).waiter = false
    ∧ (Channel.close chW).closed = true := by
  obtain ⟨h1, h2, h3, h4, h5⟩ := c9_input_channel Nat 0 [1, 2] chW 7
  obtain ⟨h5a, h5b⟩ := h5 rfl
  exact ⟨h1, h2, h3 rfl rfl, h4 rfl, h5a, h5b⟩
